import Mathlib

/-!
Verification of the nomad-mpt asynchronous FIFO bridge
(`src/bindings/rust/nomad-mpt-sys/src/bridge_fifo.hpp` and its
implementation file), as a shallow embedding in Lean 4.

Machine integers are modelled as `Nat` with explicit `% 2^w` where
overflow matters.  Byte buffers are `List Nat` (each element a byte
value).  The external trie collaborator (`mpt::Db`, upstream
category-labs/monad, not part of this repository) is modelled from the
capability contract in the specification: `resolve(key, version)`
returns a node, absence, a surfaced error, or throws; `traverse`
depth-first-visits descendants invoking the machine's `down`/`up`
callbacks, up to a node-visit limit.
-/

/-- `enum RequestType : uint8_t` from bridge_fifo.hpp. -/
inductive RequestType where
  | findValue   -- REQ_FIND_VALUE = 1
  | findNode    -- REQ_FIND_NODE = 2
  | traverse    -- REQ_TRAVERSE = 3
  | shutdown    -- REQ_SHUTDOWN = 255
deriving DecidableEq, Repr

/-- `enum ResultStatus : uint8_t` from bridge_fifo.hpp. -/
inductive ResultStatus where
  | ok            -- STATUS_OK = 0
  | notFound      -- STATUS_NOT_FOUND = 1
  | error         -- STATUS_ERROR = 2
  | traverseMore  -- STATUS_TRAVERSE_MORE = 3
  | traverseEnd   -- STATUS_TRAVERSE_END = 4
deriving DecidableEq, Repr

/-- `struct Request` from bridge_fifo.hpp: the caller fills the
128-bit correlation id as two 64-bit halves, a version, the request
kind, a key of up to 32 bytes together with its explicit length, and a
traverse limit.  The fixed 32-byte key array is modelled as the list
of bytes stored in it; lookups read the first `key_len` bytes. -/
structure Request where
  user_data_lo : Nat
  user_data_hi : Nat
  version : Nat
  type : RequestType
  key_len : Nat
  key : List Nat
  traverse_limit : Nat
deriving DecidableEq, Repr

/-- 32 zero bytes: the value of a zero-initialised `uint8_t [32]`. -/
def zero32 : List Nat := List.replicate 32 0

/-- `struct Completion` from bridge_fifo.hpp.  The 256-byte inline
buffer is modelled by the list of bytes actually copied into it
(`value_len` bytes on the inline path, nothing on the large-value
path); `merkle_hash` is the 32-byte `uint8_t [32]` field. -/
structure Completion where
  user_data_lo : Nat
  user_data_hi : Nat
  status : ResultStatus
  value_len : Nat
  value : List Nat
  merkle_hash : List Nat
deriving DecidableEq, Repr

/-- `struct LargeValueNode` from bridge_fifo.hpp (without the
queue-entry bookkeeping): correlation id halves, a 32-bit length and
the flexible-array payload. -/
structure LargeValue where
  user_data_lo : Nat
  user_data_hi : Nat
  len : Nat
  data : List Nat
deriving DecidableEq, Repr

/-- A node of the external trie, as exposed to the bridge: its own
path segment in nibbles (`path_nibble_view`), whether it has a value
(`has_value`), the value bytes, the fixed-size authentication data
(`data_data`/`data_len`) and its children indexed by branch nibble. -/
inductive MptNode where
  | mk (path_nibbles : List Nat) (hasVal : Bool) (value : List Nat)
       (dataBytes : List Nat) (children : List (Nat × MptNode))

def MptNode.path_nibbles : MptNode → List Nat
  | .mk p _ _ _ _ => p

def MptNode.has_value : MptNode → Bool
  | .mk _ h _ _ _ => h

def MptNode.value : MptNode → List Nat
  | .mk _ _ v _ _ => v

def MptNode.dataBytes : MptNode → List Nat
  | .mk _ _ _ d _ => d

def MptNode.children : MptNode → List (Nat × MptNode)
  | .mk _ _ _ _ c => c

/-- Outcome of `db_.find(key, version)` on the external collaborator,
as the bridge code distinguishes its cases: `fault` is
`result.has_error()` (a surfaced error result), `exn` is a thrown
exception caught by the worker's `try`/`catch`, and `cursor` is a
successful result whose `NodeCursor::node` may be null (key absent)
or point at a node. -/
inductive FindOutcome where
  | fault
  | exn
  | cursor (node : Option MptNode)

/-- Model of the external trie collaborator consumed by the bridge:
`resolve(key, version) → node | absent | fault`.  When a node is
returned it is the root of the subtree reachable from the key, so the
same model serves `db_.find` and as the start node of
`db_.traverse`. -/
structure DbModel where
  find : List Nat → Nat → FindOutcome

/-- `0xFFFFFFFF`: both `UINT32_MAX` and the out-of-band sentinel
stored in `Completion::value_len`. -/
def LARGE_SENTINEL : Nat := 4294967295

/-- `FifoManager::post_large_value`: refuses (returns without
enqueuing anything) when `len > UINT32_MAX`; otherwise builds one
`LargeValueNode` carrying the correlation id halves, the 32-bit
length and a copy of the payload.  Allocation is modelled as
succeeding. -/
def post_large_value (lo hi : Nat) (data : List Nat) : Option LargeValue :=
  if data.length > LARGE_SENTINEL then none
  else some { user_data_lo := lo, user_data_hi := hi, len := data.length, data := data }

/-- Records produced while processing one request: the completions
posted (to the completion queue for Find, to the traverse queue for
Traverse) in order, and the large-value records posted to the
large-value queue in order. -/
structure ProcOut where
  completions : List Completion
  larges : List LargeValue
deriving DecidableEq, Repr

/-- `FifoManager::process_find`: copies the correlation id, resolves
the key (the first `key_len` bytes of the key buffer) at the request's
version, and classifies the outcome: surfaced error or thrown
exception ⇒ `STATUS_ERROR`; null cursor node or node without value ⇒
`STATUS_NOT_FOUND`; node with value ⇒ `STATUS_OK` with the value
inlined when `value_len <= sizeof(comp.value) = 256`, else the
sentinel length plus a large-value record.  For `REQ_FIND_NODE` the
node's authentication data is copied into `merkle_hash` only when it
is exactly 32 bytes.  Exactly one completion is posted. -/
def process_find (db : DbModel) (req : Request) : ProcOut :=
  let base : Completion :=
    { user_data_lo := req.user_data_lo, user_data_hi := req.user_data_hi,
      status := .ok, value_len := 0, value := [], merkle_hash := zero32 }
  match db.find (req.key.take req.key_len) req.version with
  | .fault => { completions := [{ base with status := .error }], larges := [] }
  | .exn => { completions := [{ base with status := .error }], larges := [] }
  | .cursor none => { completions := [{ base with status := .notFound }], larges := [] }
  | .cursor (some node) =>
    if node.has_value = false then
      { completions := [{ base with status := .notFound }], larges := [] }
    else
      let vlen := node.value.length
      let inline := vlen ≤ 256
      let comp_value_len := if inline then vlen else LARGE_SENTINEL
      let comp_value := if inline then node.value else []
      let ls := if inline then ([] : List LargeValue)
                else (post_large_value req.user_data_lo req.user_data_hi node.value).toList
      let mh := if req.type = .findNode ∧ node.dataBytes.length = 32
                then node.dataBytes else zero32
      let comp : Completion :=
        { base with status := .ok, value_len := comp_value_len,
                    value := comp_value, merkle_hash := mh }
      { completions := [comp], larges := ls }

/-- `NibblesView` of a byte string: each byte contributes its high
nibble then its low nibble. -/
def bytesToNibbles (bs : List Nat) : List Nat :=
  (bs.map fun b => [b / 16 % 16, b % 16]).flatten

/-- One iteration of the nibble-packing loop in
`FifoTraverseMachine::send_node`: at index `i`, an even index stores
`nibble << 4` into byte `i / 2` (the store into a `uint8_t` reduces
mod 256), an odd index ors `nibble & 0x0F` into the same byte. -/
def packStep (p : List Nat) (buf : List Nat) (i : Nat) : List Nat :=
  let nib := p.getD i 0
  if i % 2 = 0 then buf.set (i / 2) (nib * 16 % 256)
  else buf.set (i / 2) (Nat.lor (buf.getD (i / 2) 0) (nib % 16))

/-- The packing loop run for indices `0, …, n-1` over a buffer that
starts as 32 zero bytes. -/
def packLoop (p : List Nat) : Nat → List Nat
  | 0 => zero32
  | n + 1 => packStep p (packLoop p n) n

/-- The path-packing logic of `FifoTraverseMachine::send_node`: with
`nibbles = path.nibble_size()` and `bytesn = (nibbles + 1) / 2`, if
`bytesn <= 32` every nibble is packed; otherwise only the first 64
nibbles are packed and byte 31 is overwritten with the truncation
marker `0xFF`. -/
def packNibblesBytes (p : List Nat) : List Nat :=
  let nibbles := p.length
  let bytesn := (nibbles + 1) / 2
  if bytesn ≤ 32 then packLoop p nibbles
  else (packLoop p 64).set 31 255

/-- State of one `FifoTraverseMachine` run: the accumulated nibble
path `path_`, plus the records the machine has posted so far (`out`
to the traverse queue, `larges` to the large-value queue). -/
structure MachineState where
  path : List Nat
  out : List Completion
  larges : List LargeValue

/-- `FifoTraverseMachine::send_node`: posts one `STATUS_TRAVERSE_MORE`
completion for the visited value-bearing node, inlining the value
when it fits in 256 bytes and otherwise setting the sentinel length
and posting a large-value record first; `merkle_hash` receives the
accumulated path packed from nibbles into bytes. -/
def send_node (lo hi : Nat) (n : MptNode) (st : MachineState) : MachineState :=
  let v := n.value
  let inline := v.length ≤ 256
  let comp : Completion :=
    { user_data_lo := lo, user_data_hi := hi, status := .traverseMore,
      value_len := if inline then v.length else LARGE_SENTINEL,
      value := if inline then v else [],
      merkle_hash := packNibblesBytes st.path }
  let ls := if inline then ([] : List LargeValue) else (post_large_value lo hi v).toList
  { st with out := st.out ++ [comp], larges := st.larges ++ ls }

/-- `FifoTraverseMachine::down`: `branch = none` models
`INVALID_BRANCH` (the traversal root), in which case the path is left
as the starting prefix; otherwise the branch nibble and the node's
own path segment are appended.  A value-bearing node is reported via
`send_node`.  The machine always returns `true` (continue). -/
def down (lo hi : Nat) (branch : Option Nat) (n : MptNode) (st : MachineState) :
    MachineState :=
  match branch with
  | none => if n.has_value then send_node lo hi n st else st
  | some b =>
    let st1 := { st with path := st.path ++ b :: n.path_nibbles }
    if n.has_value then send_node lo hi n st1 else st1

/-- `FifoTraverseMachine::up`: on ascent the retained prefix length is
recomputed from the current node's own path-segment length (`0` for
the traversal root) and the path is truncated to it. -/
def up (branch : Option Nat) (n : MptNode) (st : MachineState) : MachineState :=
  let psize := match branch with
    | none => 0
    | some _ => st.path.length - n.path_nibbles.length - 1
  { st with path := st.path.take psize }

mutual

/-- Modelled from the spec: the external collaborator's
`traverse(start_node, version, limit, visitor)` capability
(`mpt::Db::traverse`, upstream code not in this repository)
depth-first-visits descendants up to the node-visit limit, invoking
the machine's `down` on entry and `up` on exit of each visited node;
the root is entered with `INVALID_BRANCH`.  Returns the remaining
budget and the machine state. -/
def dfsVisit (lo hi : Nat) (branch : Option Nat) :
    MptNode → Nat → MachineState → Nat × MachineState
  | _, 0, st => (0, st)
  | .mk pn hv v dd kids, fuel + 1, st =>
    let st1 := down lo hi branch (.mk pn hv v dd kids) st
    let r := dfsKids lo hi kids fuel st1
    (r.1, up branch (.mk pn hv v dd kids) r.2)

/-- Depth-first visit of a list of children (branch nibble paired with
child node), threading the remaining budget left to right. -/
def dfsKids (lo hi : Nat) :
    List (Nat × MptNode) → Nat → MachineState → Nat × MachineState
  | [], fuel, st => (fuel, st)
  | (b, c) :: rest, fuel, st =>
    let r := dfsVisit lo hi (some b) c fuel st
    dfsKids lo hi rest r.1 r.2

end

/-- The effective traversal cap: `req.traverse_limit > 0 ?
req.traverse_limit : 4096`. -/
def effective_limit (req : Request) : Nat :=
  if req.traverse_limit > 0 then req.traverse_limit else 4096

/-- The terminal completion posted by `process_traverse`:
`STATUS_TRAVERSE_END`, the request's correlation id, no value. -/
def traverse_end_completion (req : Request) : Completion :=
  { user_data_lo := req.user_data_lo, user_data_hi := req.user_data_hi,
    status := .traverseEnd, value_len := 0, value := [], merkle_hash := zero32 }

/-- `FifoManager::process_traverse`: resolves the prefix node; when
the resolution succeeds with a node, runs a `FifoTraverseMachine`
seeded with the prefix nibbles over the subtree with the effective
limit; any failure (surfaced error, absent node, exception) skips the
walk.  In every case exactly one terminal `STATUS_TRAVERSE_END`
completion is posted after the walk's completions. -/
def process_traverse (db : DbModel) (req : Request) : ProcOut :=
  let keyBytes := req.key.take req.key_len
  let st0 : MachineState := { path := bytesToNibbles keyBytes, out := [], larges := [] }
  let pre : MachineState :=
    match db.find keyBytes req.version with
    | .cursor (some root) =>
      (dfsVisit req.user_data_lo req.user_data_hi none root (effective_limit req) st0).2
    | _ => st0
  { completions := pre.out ++ [traverse_end_completion req], larges := pre.larges }

/-- What one iteration of `FifoManager::worker_fiber` does, as a
function of what the iteration observes: the `running_` flag read at
the top of the loop and the result of the dequeue attempt. -/
inductive WorkerAction where
  | exitFlag               -- running_ observed false: leave the loop
  | exitShutdown           -- dequeued REQ_SHUTDOWN: return
  | yieldEmpty             -- empty dequeue: boost::this_fiber::yield(), continue
  | work (t : RequestType) -- dequeued a work request: process it, continue
deriving DecidableEq, Repr

/-- One iteration of the worker loop: check `running_` first; if still
running, dequeue; an empty dequeue yields, `REQ_SHUTDOWN` returns,
anything else is processed and the loop continues. -/
def workerStep (running : Bool) (deq : Option RequestType) : WorkerAction :=
  if running = false then .exitFlag
  else
    match deq with
    | none => .yieldEmpty
    | some t => if t = .shutdown then .exitShutdown else .work t

/-- Whether an action leaves the loop. -/
def WorkerAction.isExit : WorkerAction → Bool
  | .exitFlag => true
  | .exitShutdown => true
  | .yieldEmpty => false
  | .work _ => false

/-- A worker's environment: for each loop iteration, the value of the
`running_` flag it reads and the request (if any) its dequeue
returns. -/
def WorkerEnv : Type := Nat → Bool × Option RequestType

/-- The action the worker takes at iteration `i` of its loop. -/
def stepAt (env : WorkerEnv) (i : Nat) : WorkerAction :=
  workerStep (env i).1 (env i).2

/-- The worker loop runs iterations `0, …, n-1` without exiting and
exits at iteration `n`. -/
def workerExitsAt (env : WorkerEnv) (n : Nat) : Prop :=
  (∀ i < n, (stepAt env i).isExit = false) ∧ (stepAt env n).isExit = true

/-- Iteration `i` observes an exit condition: the flag is false at the
top of the loop, or the dequeue returns a Shutdown request. -/
def exitCond (env : WorkerEnv) (i : Nat) : Prop :=
  (env i).1 = false ∨ (env i).2 = some .shutdown

instance (env : WorkerEnv) : DecidablePred (exitCond env) := fun i => by
  unfold exitCond; infer_instance

/-- Lifecycle-relevant observable events of `FifoManager::start` and
`FifoManager::stop`, in program order. -/
inductive LifeEv where
  | setRunningTrue   -- running_.store(true)
  | createPool       -- pool_ = make_unique<PriorityPool>(1, n)
  | spawnWorker      -- pool_->submit(0, worker_fiber)
  | setRunningFalse  -- running_.exchange(false) flips the flag
  | sendShutdown     -- one REQ_SHUTDOWN enqueued on the request queue
  | destroyPool      -- pool_.reset(): waits for all fibers, frees pool
deriving DecidableEq, Repr

/-- A zero-initialised request, as produced by
`FifoManager::alloc_request` (which memsets the node to zero); the
zero `type` byte is not a valid `RequestType`, so the model keeps the
field that `stop` subsequently assigns. -/
def shutdown_request : Request :=
  { user_data_lo := 0, user_data_hi := 0, version := 0, type := .shutdown,
    key_len := 0, key := List.replicate 32 0, traverse_limit := 0 }

/-- Observable state of a `FifoManager`: the `running_` flag, the
`num_workers_` count, whether `pool_` is live, and the contents of
the four queues. -/
structure FifoManager where
  running : Bool
  num_workers : Nat
  hasPool : Bool
  requestQ : List Request
  completionQ : List Completion
  traverseQ : List Completion
  largeQ : List LargeValue
deriving DecidableEq, Repr

/-- The state of a freshly constructed `FifoManager`: queues created
empty, not running, no pool. -/
def FifoManager.init : FifoManager :=
  { running := false, num_workers := 0, hasPool := false,
    requestQ := [], completionQ := [], traverseQ := [], largeQ := [] }

/-- `FifoManager::start(num_workers)`: a no-op when already running;
otherwise raises a zero worker count to 1, stores `running_ = true`,
creates the pool and spawns the worker fibers.  Returns the new state
and the ordered list of lifecycle events performed. -/
def FifoManager.start (s : FifoManager) (num_workers : Nat) :
    FifoManager × List LifeEv :=
  if s.running then (s, [])
  else
    let n := if num_workers = 0 then 1 else num_workers
    ({ s with running := true, num_workers := n, hasPool := true },
     [.setRunningTrue, .createPool] ++ List.replicate n .spawnWorker)

/-- `FifoManager::stop`: `running_.exchange(false)` makes a repeated
or premature call a no-op; otherwise one `REQ_SHUTDOWN` request per
worker is enqueued (allocation modelled as succeeding; the code
`continue`s past a failed allocation and relies on the flag) and the
pool is destroyed, which waits for all fibers. -/
def FifoManager.stop (s : FifoManager) : FifoManager × List LifeEv :=
  if s.running = false then (s, [])
  else
    ({ s with running := false, num_workers := 0, hasPool := false,
              requestQ := s.requestQ ++ List.replicate s.num_workers shutdown_request },
     [.setRunningFalse] ++ List.replicate s.num_workers .sendShutdown ++ [.destroyPool])

/-- `FifoManager::submit`: enqueues the request node on the request
queue (entry allocation modelled as succeeding; on failure the code
frees the node and drops the request). -/
def FifoManager.submit (s : FifoManager) (req : Request) : FifoManager :=
  { s with requestQ := s.requestQ ++ [req] }

/-- `FifoManager::poll_completion`: non-blocking dequeue from the
completion queue. -/
def FifoManager.poll_completion (s : FifoManager) : Option Completion × FifoManager :=
  (s.completionQ.head?, { s with completionQ := s.completionQ.tail })

/-- `FifoManager::poll_traverse`: non-blocking dequeue from the
traverse queue. -/
def FifoManager.poll_traverse (s : FifoManager) : Option Completion × FifoManager :=
  (s.traverseQ.head?, { s with traverseQ := s.traverseQ.tail })

/-- `FifoManager::poll_large_value`: non-blocking dequeue from the
large-value queue. -/
def FifoManager.poll_large_value (s : FifoManager) : Option LargeValue × FifoManager :=
  (s.largeQ.head?, { s with largeQ := s.largeQ.tail })

/-
The `extern "C"` entry points.  A possibly-null pointer argument is an
`Option`; the observable effect of each call is its return value
together with the resulting manager state (`none` both for "null
manager" and for a destroyed manager).  Functions that only free
memory return the `Bool` "did anything get freed / run".
-/

/-- `fifo_create`: null db handle ⇒ `nullptr`, otherwise a fresh
manager. -/
def fifo_create (db : Option DbModel) : Option FifoManager :=
  match db with
  | none => none
  | some _ => some FifoManager.init

/-- `fifo_destroy`: `delete mgr` (safe on null); the manager is gone
afterwards. -/
def fifo_destroy (_mgr : Option FifoManager) : Option FifoManager := none

/-- `fifo_start`: `if (mgr) mgr->start(num_workers)`. -/
def fifo_start (mgr : Option FifoManager) (num_workers : Nat) : Option FifoManager :=
  match mgr with
  | none => none
  | some s => some (s.start num_workers).1

/-- `fifo_stop`: `if (mgr) mgr->stop()`. -/
def fifo_stop (mgr : Option FifoManager) : Option FifoManager :=
  match mgr with
  | none => none
  | some s => some s.stop.1

/-- `fifo_alloc_request`: returns a node only for a non-null manager
(`mgr ? mgr->alloc_request() : nullptr`); allocation is modelled as
succeeding, and the observable kept is whether a node was returned. -/
def fifo_alloc_request (mgr : Option FifoManager) : Bool :=
  mgr.isSome

/-- `fifo_free_request`: `if (mgr && node) mgr->free_request(node)`;
returns whether the free ran. -/
def fifo_free_request (mgr : Option FifoManager) (node : Option Request) : Bool :=
  mgr.isSome && node.isSome

/-- `fifo_submit`: `if (mgr && node) mgr->submit(node)`; a null
manager or node leaves the state unchanged. -/
def fifo_submit (mgr : Option FifoManager) (node : Option Request) : Option FifoManager :=
  match mgr, node with
  | some s, some r => some (s.submit r)
  | _, _ => mgr

/-- `fifo_poll_completion`: `mgr ? mgr->poll_completion() : nullptr`. -/
def fifo_poll_completion (mgr : Option FifoManager) :
    Option Completion × Option FifoManager :=
  match mgr with
  | none => (none, none)
  | some s => ((s.poll_completion).1, some (s.poll_completion).2)

/-- `fifo_free_completion`: `if (mgr && node) mgr->free_completion(node)`. -/
def fifo_free_completion (mgr : Option FifoManager) (node : Option Completion) : Bool :=
  mgr.isSome && node.isSome

/-- `fifo_poll_traverse`: `mgr ? mgr->poll_traverse() : nullptr`. -/
def fifo_poll_traverse (mgr : Option FifoManager) :
    Option Completion × Option FifoManager :=
  match mgr with
  | none => (none, none)
  | some s => ((s.poll_traverse).1, some (s.poll_traverse).2)

/-- `fifo_free_traverse`: `if (mgr && node) mgr->free_traverse(node)`. -/
def fifo_free_traverse (mgr : Option FifoManager) (node : Option Completion) : Bool :=
  mgr.isSome && node.isSome

/-- `fifo_poll_large_value`: `mgr ? mgr->poll_large_value() : nullptr`. -/
def fifo_poll_large_value (mgr : Option FifoManager) :
    Option LargeValue × Option FifoManager :=
  match mgr with
  | none => (none, none)
  | some s => ((s.poll_large_value).1, some (s.poll_large_value).2)

/-- `fifo_free_large_value`: `if (mgr && node) mgr->free_large_value(node)`. -/
def fifo_free_large_value (mgr : Option FifoManager) (node : Option LargeValue) : Bool :=
  mgr.isSome && node.isSome

/-- `fifo_alloc_request_batch`: `mgr ? mgr->alloc_request_batch(out,
count) : 0`; the method returns `count`. -/
def fifo_alloc_request_batch (mgr : Option FifoManager) (count : Nat) : Nat :=
  match mgr with
  | none => 0
  | some _ => count

/-- `fifo_submit_batch`: `if (mgr) mgr->submit_batch(nodes, count)`. -/
def fifo_submit_batch (mgr : Option FifoManager) (nodes : List Request) :
    Option FifoManager :=
  match mgr with
  | none => none
  | some s => some { s with requestQ := s.requestQ ++ nodes }

/-- `fifo_poll_completion_batch`: drains up to `max_count` nodes;
null manager ⇒ returns 0 having done nothing. -/
def fifo_poll_completion_batch (mgr : Option FifoManager) (max_count : Nat) :
    List Completion × Option FifoManager :=
  match mgr with
  | none => ([], none)
  | some s => (s.completionQ.take max_count,
               some { s with completionQ := s.completionQ.drop max_count })

/-- `fifo_free_completion_batch`: `if (mgr)
mgr->free_completion_batch(nodes, count)`. -/
def fifo_free_completion_batch (mgr : Option FifoManager) (_count : Nat) : Bool :=
  mgr.isSome

/-- `fifo_poll_traverse_batch`: drains up to `max_count` nodes; null
manager ⇒ returns 0 having done nothing. -/
def fifo_poll_traverse_batch (mgr : Option FifoManager) (max_count : Nat) :
    List Completion × Option FifoManager :=
  match mgr with
  | none => ([], none)
  | some s => (s.traverseQ.take max_count,
               some { s with traverseQ := s.traverseQ.drop max_count })

/-- `fifo_free_traverse_batch`: `if (mgr) mgr->free_traverse_batch(nodes,
count)`. -/
def fifo_free_traverse_batch (mgr : Option FifoManager) (_count : Nat) : Bool :=
  mgr.isSome

/-
Theorems.
-/

/-- C10: every `extern "C"` entry point of the FIFO bridge tolerates a
null manager pointer — it returns `nullptr`/`0` or performs no
operation — and the free/submit functions additionally tolerate a
null node pointer without dereferencing it. -/
theorem ffi_null_safety (m : FifoManager) (r : Request) (c : Completion)
    (l : LargeValue) (n cnt : Nat) (rs : List Request) :
    fifo_create none = none ∧
    fifo_destroy none = none ∧
    fifo_start none n = none ∧
    fifo_stop none = none ∧
    fifo_alloc_request none = false ∧
    fifo_free_request none (some r) = false ∧
    fifo_free_request (some m) none = false ∧
    fifo_submit none (some r) = none ∧
    fifo_submit (some m) none = some m ∧
    fifo_poll_completion none = (none, none) ∧
    fifo_free_completion none (some c) = false ∧
    fifo_free_completion (some m) none = false ∧
    fifo_poll_traverse none = (none, none) ∧
    fifo_free_traverse none (some c) = false ∧
    fifo_free_traverse (some m) none = false ∧
    fifo_poll_large_value none = (none, none) ∧
    fifo_free_large_value none (some l) = false ∧
    fifo_free_large_value (some m) none = false ∧
    fifo_alloc_request_batch none cnt = 0 ∧
    fifo_submit_batch none rs = none ∧
    fifo_poll_completion_batch none cnt = ([], none) ∧
    fifo_free_completion_batch none cnt = false ∧
    fifo_poll_traverse_batch none cnt = ([], none) ∧
    fifo_free_traverse_batch none cnt = false := by
  refine ⟨rfl, rfl, rfl, rfl, rfl, rfl, ?_, rfl, rfl, rfl, rfl, ?_, rfl, rfl, ?_,
          rfl, rfl, ?_, rfl, rfl, rfl, rfl, rfl, rfl⟩ <;>
    simp [fifo_free_request, fifo_free_completion, fifo_free_traverse,
          fifo_free_large_value]

/-- C6: `start` and `stop` are idempotent; a second `start` while
running and a second `stop` (or a `stop` before any `start`) are
no-ops (same state, no lifecycle events), and in `start`'s event
trace `running_ = true` is stored strictly before any worker is
spawned. -/
theorem start_stop_idempotent (s : FifoManager) (n : Nat) :
    FifoManager.start (FifoManager.start s n).1 n = ((FifoManager.start s n).1, []) ∧
    FifoManager.stop (FifoManager.stop s).1 = ((FifoManager.stop s).1, []) ∧
    (s.running = false → FifoManager.stop s = (s, [])) ∧
    (∀ i, (FifoManager.start s n).2[i]? = some .spawnWorker →
      (FifoManager.start s n).2[0]? = some .setRunningTrue ∧ 0 < i) := by
  by_cases hr : s.running
  · refine ⟨?_, ?_, ?_, ?_⟩
    · simp [FifoManager.start, hr]
    · simp [FifoManager.stop, hr]
    · intro h; simp [hr] at h
    · intro i hi; simp [FifoManager.start, hr] at hi
  · refine ⟨?_, ?_, ?_, ?_⟩
    · simp [FifoManager.start, hr]
    · simp [FifoManager.stop, hr]
    · intro _; simp [FifoManager.stop, hr]
    · intro i hi
      simp only [FifoManager.start, hr, if_false] at hi ⊢
      constructor
      · rfl
      · match i with
        | 0 => simp at hi
        | i + 1 => omega

/-- Witness for C6 at a concrete state: a `stop` before any `start`
is a no-op. -/
theorem start_stop_idempotent_witness :
    FifoManager.init.running = false ∧
    FifoManager.stop FifoManager.init = (FifoManager.init, []) :=
  ⟨rfl, (start_stop_idempotent FifoManager.init 2).2.2.1 rfl⟩

/-- C9: `start(0)` behaves exactly like `start(1)`: the worker count
is raised to 1 before the pool is created, so a previously stopped
manager ends up running with one worker and a later `stop` sends one
Shutdown request. -/
theorem start_zero_workers (s : FifoManager) :
    FifoManager.start s 0 = FifoManager.start s 1 ∧
    (s.running = false →
      (FifoManager.start s 0).1.running = true ∧
      (FifoManager.start s 0).1.num_workers = 1 ∧
      (FifoManager.start s 0).2.count LifeEv.spawnWorker = 1 ∧
      ((FifoManager.start s 0).1.stop).2.count LifeEv.sendShutdown = 1 ∧
      ((FifoManager.start s 0).1.stop).1.requestQ =
        (FifoManager.start s 0).1.requestQ ++ [shutdown_request]) := by
  by_cases hr : s.running
  · refine ⟨by simp [FifoManager.start, hr], fun h => absurd h (by simp [hr])⟩
  · refine ⟨by simp [FifoManager.start, hr], fun _ => ?_⟩
    refine ⟨by simp [FifoManager.start, hr], by simp [FifoManager.start, hr], ?_, ?_, ?_⟩
    · simp [FifoManager.start, hr, List.count_cons, List.count_replicate]
    · simp [FifoManager.start, FifoManager.stop, hr, List.count_cons,
            List.count_append, List.count_replicate]
    · simp [FifoManager.start, FifoManager.stop, hr, List.replicate]

/-- Witness for C9 at a concrete state: starting a fresh manager with
zero workers runs it with one worker. -/
theorem start_zero_workers_witness :
    FifoManager.init.running = false ∧
    (FifoManager.start FifoManager.init 0).1.num_workers = 1 :=
  ⟨rfl, ((start_zero_workers FifoManager.init).2 rfl).2.1⟩


/-- The completion `process_find` builds once the collaborator has
resolved the key to a value-bearing node (its expected normal form,
used by the Find helper lemma below). -/
def found_completion (req : Request) (node : MptNode) : Completion where
  user_data_lo := req.user_data_lo
  user_data_hi := req.user_data_hi
  status := .ok
  value_len := if node.value.length ≤ 256 then node.value.length else LARGE_SENTINEL
  value := if node.value.length ≤ 256 then node.value else []
  merkle_hash := if req.type = .findNode ∧ node.dataBytes.length = 32
                 then node.dataBytes else zero32

/-- The large-value records `process_find` posts in that same case. -/
def found_larges (req : Request) (node : MptNode) : List LargeValue :=
  if node.value.length ≤ 256 then []
  else (post_large_value req.user_data_lo req.user_data_hi node.value).toList

/-- Normal form of `process_find` when the collaborator resolves the
key to a value-bearing node (helper shared by the Find theorems). -/
theorem process_find_found_spec (db : DbModel) (req : Request) (node : MptNode)
    (hfind : db.find (req.key.take req.key_len) req.version = .cursor (some node))
    (hval : node.has_value = true) :
    process_find db req =
      { completions := [found_completion req node], larges := found_larges req node } := by
  unfold process_find found_completion found_larges
  rw [hfind]
  simp [hval]

/-- A found value longer than `UINT32_MAX` bytes: a node carrying a
`2^32`-byte value. -/
def big_value_node : MptNode := .mk [] true (List.replicate 4294967296 1) [] []

/-- Collaborator that resolves every key to `big_value_node`. -/
def big_value_db : DbModel := ⟨fun _ _ => .cursor (some big_value_node)⟩

/-- A FindValue request used against `big_value_db`. -/
def big_value_req : Request :=
  { user_data_lo := 11, user_data_hi := 22, version := 7, type := .findValue,
    key_len := 1, key := [170], traverse_limit := 0 }

/-- C8: for a found value whose length exceeds `2^32 - 1` bytes the
completion's `value_len` is set to the out-of-band sentinel
`0xFFFFFFFF`, but `post_large_value` returns without enqueuing
anything, so no LargeValue record with that correlation id is ever
produced. -/
theorem oversized_value_drops_large_record :
    LARGE_SENTINEL < big_value_node.value.length ∧
    256 < big_value_node.value.length ∧
    (process_find big_value_db big_value_req).completions.map Completion.value_len
      = [LARGE_SENTINEL] ∧
    (process_find big_value_db big_value_req).larges = [] := by
  have hv : big_value_node.value = List.replicate 4294967296 1 := rfl
  have hlen : big_value_node.value.length = 4294967296 := by
    rw [hv, List.length_replicate]
  have hspec := process_find_found_spec big_value_db big_value_req big_value_node rfl rfl
  have h256 : ¬ (big_value_node.value.length ≤ 256) := by rw [hlen]; norm_num
  have hbig : big_value_node.value.length > LARGE_SENTINEL := by
    rw [hlen]; norm_num [LARGE_SENTINEL]
  refine ⟨hbig, by omega, ?_, ?_⟩
  · rw [hspec]
    simp [found_completion, h256]
  · rw [hspec]
    simp [found_larges, h256, post_large_value, hbig]

/-- Counterexample to C1 as stated: at this input the found value has
size `S = 2^32 > 256`, yet no LargeValue record at all is produced
(the claim demands exactly one). -/
theorem find_value_large_counterexample :
    256 < big_value_node.value.length ∧
    (process_find big_value_db big_value_req).larges.length = 0 := by
  have hv : big_value_node.value = List.replicate 4294967296 1 := rfl
  have hlen : big_value_node.value.length = 4294967296 := by
    rw [hv, List.length_replicate]
  have hspec := process_find_found_spec big_value_db big_value_req big_value_node rfl rfl
  have h256 : ¬ (big_value_node.value.length ≤ 256) := by rw [hlen]; norm_num
  have hbig : big_value_node.value.length > LARGE_SENTINEL := by
    rw [hlen]; norm_num [LARGE_SENTINEL]
  refine ⟨by omega, ?_⟩
  rw [hspec]
  simp [found_larges, h256, post_large_value, hbig]

/-- C1 (amended): for a FindValue request whose key resolves to a
value of size `S`, processing produces exactly one Ok completion; for
`S ≤ 256` its inline value is the original bytes with `value_len = S`
and no LargeValue; for `256 < S ≤ 2^32 - 1` it carries the sentinel
length and exactly one LargeValue with the same correlation id and
the original payload; for `S > 2^32 - 1` the sentinel is still set
but no LargeValue is produced. -/
theorem find_value_roundtrip (db : DbModel) (req : Request) (node : MptNode)
    (hfind : db.find (req.key.take req.key_len) req.version = .cursor (some node))
    (hval : node.has_value = true) :
    ∃ c, (process_find db req).completions = [c] ∧ c.status = .ok ∧
      (node.value.length ≤ 256 →
        c.value_len = node.value.length ∧ c.value = node.value ∧
        (process_find db req).larges = []) ∧
      (256 < node.value.length →
        c.value_len = LARGE_SENTINEL ∧ c.value = [] ∧
        (node.value.length ≤ LARGE_SENTINEL →
          (process_find db req).larges =
            [⟨req.user_data_lo, req.user_data_hi, node.value.length, node.value⟩]) ∧
        (LARGE_SENTINEL < node.value.length →
          (process_find db req).larges = [])) := by
  rw [process_find_found_spec db req node hfind hval]
  refine ⟨found_completion req node, rfl, rfl, ?_, ?_⟩
  · intro h
    refine ⟨?_, ?_, ?_⟩ <;> simp [found_completion, found_larges, h]
  · intro h
    have h' : ¬ (node.value.length ≤ 256) := by omega
    refine ⟨?_, ?_, ?_, ?_⟩
    · simp [found_completion, h']
    · simp [found_completion, h']
    · intro hle
      have : ¬ (node.value.length > LARGE_SENTINEL) := by omega
      simp [found_larges, h', post_large_value, this]
    · intro hgt
      simp [found_larges, h', post_large_value, hgt]

/-- A node holding the 5-byte value "hello". -/
def hello_node : MptNode := .mk [] true [104, 101, 108, 108, 111] [] []

/-- Collaborator that resolves every key to `hello_node`. -/
def hello_db : DbModel := ⟨fun _ _ => .cursor (some hello_node)⟩

/-- A FindValue request with a 32-byte key. -/
def hello_req : Request :=
  { user_data_lo := 5, user_data_hi := 6, version := 5, type := .findValue,
    key_len := 32, key := List.replicate 32 1, traverse_limit := 0 }

/-- Witness for C1 at a concrete input: a 5-byte value round-trips
inline and no LargeValue is produced. -/
theorem find_value_roundtrip_witness :
    (process_find hello_db hello_req).completions.map Completion.value
      = [[104, 101, 108, 108, 111]] ∧
    (process_find hello_db hello_req).larges = [] := by
  obtain ⟨c, hc, _, hin, _⟩ := find_value_roundtrip hello_db hello_req hello_node rfl rfl
  obtain ⟨_, h2, h3⟩ := hin (by simp [hello_node, MptNode.value])
  rw [hc, h3]
  simp [h2, hello_node, MptNode.value]

/-- The completion `process_find` posts on the non-Ok paths: the
correlation id, a status, and zeroed value/hash fields. -/
def status_completion (req : Request) (st : ResultStatus) : Completion where
  user_data_lo := req.user_data_lo
  user_data_hi := req.user_data_hi
  status := st
  value_len := 0
  value := []
  merkle_hash := zero32

/-- C2: `process_find` always posts exactly one completion (any
collaborator exception is swallowed, never propagated), and its
status is determined by the lookup outcome: surfaced error or thrown
exception ⇒ Error, absent key (null cursor node) ⇒ NotFound, node
without value ⇒ NotFound, node with value ⇒ Ok. -/
theorem find_status_mapping (db : DbModel) (req : Request) :
    ∃ c, (process_find db req).completions = [c] ∧
      (db.find (req.key.take req.key_len) req.version = .fault → c.status = .error) ∧
      (db.find (req.key.take req.key_len) req.version = .exn → c.status = .error) ∧
      (db.find (req.key.take req.key_len) req.version = .cursor none →
        c.status = .notFound) ∧
      (∀ node, db.find (req.key.take req.key_len) req.version = .cursor (some node) →
        (node.has_value = false → c.status = .notFound) ∧
        (node.has_value = true → c.status = .ok)) := by
  rcases hf : db.find (req.key.take req.key_len) req.version with _ | _ | onode
  · refine ⟨status_completion req .error,
      by simp [process_find, hf, status_completion], fun _ => rfl, ?_, ?_, ?_⟩
    · intro h; cases h
    · intro h; cases h
    · intro node h; cases h
  · refine ⟨status_completion req .error,
      by simp [process_find, hf, status_completion], ?_, fun _ => rfl, ?_, ?_⟩
    · intro h; cases h
    · intro h; cases h
    · intro node h; cases h
  · rcases onode with _ | node
    · refine ⟨status_completion req .notFound,
        by simp [process_find, hf, status_completion], ?_, ?_, fun _ => rfl, ?_⟩
      · intro h; cases h
      · intro h; cases h
      · intro node h; injection h with h1; cases h1
    · rcases hb : node.has_value with _ | _
      · refine ⟨status_completion req .notFound,
          by simp [process_find, hf, hb, status_completion], ?_, ?_, ?_, ?_⟩
        · intro h; cases h
        · intro h; cases h
        · intro h; injection h with h1; cases h1
        · intro node' h
          injection h with h1
          injection h1 with h2
          subst h2
          exact ⟨fun _ => rfl, fun ht => by rw [hb] at ht; cases ht⟩
      · refine ⟨found_completion req node, ?_, ?_, ?_, ?_, ?_⟩
        · rw [process_find_found_spec db req node hf hb]
        · intro h; cases h
        · intro h; cases h
        · intro h; injection h with h1; cases h1
        · intro node' h
          injection h with h1
          injection h1 with h2
          subst h2
          exact ⟨fun ht => (by rw [hb] at ht; cases ht), fun _ => rfl⟩

/-- Collaborator whose lookup raises an exception. -/
def err_db : DbModel := ⟨fun _ _ => .exn⟩

/-- Witness for C2 at a concrete input: an exception during lookup is
swallowed into a single Error completion. -/
theorem find_status_mapping_witness :
    (process_find err_db hello_req).completions.map Completion.status = [.error] := by
  obtain ⟨c, hc, _, hexn, _, _⟩ := find_status_mapping err_db hello_req
  rw [hc]
  simp [hexn rfl]

/-- A worker-loop iteration exits exactly when it observes the flag
false or dequeues a Shutdown request (helper for C5). -/
theorem stepAt_exit_iff (env : WorkerEnv) (i : Nat) :
    (stepAt env i).isExit = true ↔ exitCond env i := by
  unfold stepAt workerStep exitCond
  rcases hb : (env i).1 with _ | _ <;> rcases hd : (env i).2 with _ | t <;>
    simp [WorkerAction.isExit]
  by_cases hts : t = RequestType.shutdown <;> simp [hts, WorkerAction.isExit]

/-- C5: the worker loop terminates exactly when some iteration
observes the running flag false at the top of the loop or dequeues a
Shutdown request; an empty dequeue yields cooperatively rather than
exiting or spinning; and once the flag is permanently false (after
`stop`), the worker exits within a bounded number of iterations even
if no Shutdown message was ever enqueued. -/
theorem worker_loop_termination (env : WorkerEnv) (N : Nat) :
    ((∃ n, workerExitsAt env n) ↔ (∃ i, exitCond env i)) ∧
    workerStep true none = .yieldEmpty ∧
    ((∀ i, N ≤ i → (env i).1 = false) → ∃ n, n ≤ N ∧ workerExitsAt env n) := by
  refine ⟨⟨?_, ?_⟩, rfl, ?_⟩
  · rintro ⟨n, _, hexit⟩
    exact ⟨n, (stepAt_exit_iff env n).mp hexit⟩
  · rintro ⟨i, hc⟩
    have hex : ∃ j, exitCond env j := ⟨i, hc⟩
    refine ⟨Nat.find hex, ?_, (stepAt_exit_iff env _).mpr (Nat.find_spec hex)⟩
    intro j hj
    rcases h : (stepAt env j).isExit with _ | _
    · rfl
    · exact absurd ((stepAt_exit_iff env j).mp h) (Nat.find_min hex hj)
  · intro hflag
    have hex : ∃ j, exitCond env j := ⟨N, Or.inl (hflag N le_rfl)⟩
    refine ⟨Nat.find hex, Nat.find_le (Or.inl (hflag N le_rfl)), ?_,
            (stepAt_exit_iff env _).mpr (Nat.find_spec hex)⟩
    intro j hj
    rcases h : (stepAt env j).isExit with _ | _
    · rfl
    · exact absurd ((stepAt_exit_iff env j).mp h) (Nat.find_min hex hj)

/-- Environment for the C5 witness: the flag reads true for the first
two iterations (both empty dequeues) and false afterwards; no
Shutdown message ever arrives. -/
def stop_env : WorkerEnv := fun i => (decide (i < 2), none)

/-- Witness for C5 at a concrete environment: with the flag false
from iteration 2 on, the worker exits by iteration 2. -/
theorem worker_loop_termination_witness :
    ∃ n, n ≤ 2 ∧ workerExitsAt stop_env n := by
  refine (worker_loop_termination stop_env 2).2.2 ?_
  intro i hi
  simp [stop_env]
  omega

/-- One byte of the packed path: nibble `2k` in the high half, nibble
`2k + 1` in the low half, missing nibbles read as zero. -/
def packedByte (p : List Nat) (k : Nat) : Nat :=
  p.getD (2 * k) 0 * 16 + p.getD (2 * k + 1) 0

/-- The nibble path packed two-nibbles-per-byte into 32 bytes with
zero padding (the behaviour C4 states for paths of at most 64
nibbles). -/
def packSpec (p : List Nat) : List Nat :=
  (List.range 32).map (packedByte p)

/-- `or`-ing a low nibble into a byte with a clear low half is
addition. -/
theorem nibble_lor : ∀ a < 16, ∀ b < 16, Nat.lor (a * 16) b = a * 16 + b := by decide

/-- Every `getD` of a nibble list is a nibble. -/
theorem getD_lt_16 (p : List Nat) (hp : ∀ x ∈ p, x < 16) (i : Nat) :
    p.getD i 0 < 16 := by
  by_cases h : i < p.length
  · rw [List.getD_eq_getElem _ _ h]
    exact hp _ (List.getElem_mem h)
  · rw [List.getD_eq_default _ _ (Nat.le_of_not_lt h)]
    norm_num

/-- Setting an element of a mapped range is mapping a pointwise
update. -/
theorem map_range_set (n : Nat) (f : Nat → Nat) (j v : Nat) :
    ((List.range n).map f).set j v =
      (List.range n).map fun k => if k = j then v else f k := by
  apply List.ext_getElem
  · simp
  · intro i h1 h2
    simp only [List.getElem_set, List.getElem_map, List.getElem_range]
    by_cases hji : j = i
    · simp [hji]
    · rw [if_neg hji, if_neg fun h => hji h.symm]

/-- `getD` of a mapped range inside bounds. -/
theorem map_range_getD (n : Nat) (f : Nat → Nat) (j : Nat) (hj : j < n) :
    ((List.range n).map f).getD j 0 = f j := by
  have h : j < ((List.range n).map f).length := by simp [hj]
  rw [List.getD_eq_getElem _ _ h]
  simp

/-- Characterisation of the packing loop after `n ≤ 64` iterations:
byte `k` holds both nibbles once index `2k + 1` has been processed,
only the high nibble after index `2k`, and zero otherwise. -/
theorem packLoop_eq (p : List Nat) (hp : ∀ x ∈ p, x < 16) :
    ∀ n, n ≤ 64 →
      packLoop p n = (List.range 32).map fun k =>
        if 2 * k + 1 < n then p.getD (2 * k) 0 * 16 + p.getD (2 * k + 1) 0
        else if 2 * k < n then p.getD (2 * k) 0 * 16
        else 0 := by
  intro n
  induction n with
  | zero =>
    intro _
    simp [packLoop, zero32, List.map_const']
  | succ n ih =>
    intro hn
    have ihn := ih (by omega)
    simp only [packLoop, packStep]
    rw [ihn]
    by_cases hpar : n % 2 = 0
    · rw [if_pos hpar, map_range_set]
      apply List.map_congr_left
      intro k hk
      by_cases hk2 : k = n / 2
      · subst hk2
        have c1 : ¬ (2 * (n / 2) + 1 < n + 1) := by omega
        have c2 : 2 * (n / 2) < n + 1 := by omega
        have h2k : 2 * (n / 2) = n := by omega
        rw [if_pos rfl, if_neg c1, if_pos c2, h2k,
            Nat.mod_eq_of_lt (by have := getD_lt_16 p hp n; omega)]
      · rw [if_neg hk2]
        have e1 : (2 * k + 1 < n + 1) ↔ (2 * k + 1 < n) := by omega
        have e2 : (2 * k < n + 1) ↔ (2 * k < n) := by omega
        simp only [e1, e2]
    · rw [if_neg hpar]
      have hj : n / 2 < 32 := by omega
      rw [map_range_getD 32 _ (n / 2) hj, map_range_set]
      apply List.map_congr_left
      intro k hk
      by_cases hk2 : k = n / 2
      · subst hk2
        have c1 : ¬ (2 * (n / 2) + 1 < n) := by omega
        have c2 : 2 * (n / 2) < n := by omega
        have heq : 2 * (n / 2) + 1 = n := by omega
        have ha := getD_lt_16 p hp (2 * (n / 2))
        have hb := getD_lt_16 p hp n
        rw [if_pos rfl, if_neg c1, if_pos c2,
            Nat.mod_eq_of_lt hb, nibble_lor _ ha _ hb,
            if_pos (by omega : 2 * (n / 2) + 1 < n + 1), heq]
      · rw [if_neg hk2]
        have e1 : (2 * k + 1 < n + 1) ↔ (2 * k + 1 < n) := by omega
        have e2 : (2 * k < n + 1) ↔ (2 * k < n) := by omega
        simp only [e1, e2]

/-- `getD` inside the taken range reads the original list. -/
theorem getD_take_lt (p : List Nat) (m i : Nat) (hi : i < m) (hip : i < p.length) :
    (p.take m).getD i 0 = p.getD i 0 := by
  have h1 : i < (p.take m).length := by
    simp [List.length_take]
    omega
  rw [List.getD_eq_getElem _ _ h1, List.getD_eq_getElem _ _ hip, List.getElem_take]

/-- The packed-path characterisation (helper for C4): at most 64
nibbles pack exactly with zero padding; more than 64 nibbles pack
the first 64 and overwrite byte 31 with the marker `0xFF`. -/
theorem packNibblesBytes_spec (p : List Nat) (hp : ∀ x ∈ p, x < 16) :
    (p.length ≤ 64 → packNibblesBytes p = packSpec p) ∧
    (64 < p.length → packNibblesBytes p = (packSpec (p.take 64)).set 31 255) := by
  constructor
  · intro hlen
    unfold packNibblesBytes
    rw [if_pos (by omega : (p.length + 1) / 2 ≤ 32)]
    rw [packLoop_eq p hp p.length hlen]
    unfold packSpec packedByte
    apply List.map_congr_left
    intro k hk
    by_cases h1 : 2 * k + 1 < p.length
    · rw [if_pos h1]
    · rw [if_neg h1]
      by_cases h2 : 2 * k < p.length
      · rw [if_pos h2, List.getD_eq_default _ _ (by omega : p.length ≤ 2 * k + 1)]
        omega
      · rw [if_neg h2, List.getD_eq_default _ _ (by omega : p.length ≤ 2 * k),
            List.getD_eq_default _ _ (by omega : p.length ≤ 2 * k + 1)]
  · intro hlen
    unfold packNibblesBytes
    rw [if_neg (by omega : ¬ ((p.length + 1) / 2 ≤ 32))]
    rw [packLoop_eq p hp 64 le_rfl]
    unfold packSpec packedByte
    congr 1
    apply List.map_congr_left
    intro k hk
    have hk32 : k < 32 := List.mem_range.mp hk
    rw [if_pos (by omega : 2 * k + 1 < 64)]
    rw [getD_take_lt p 64 (2 * k) (by omega) (by omega),
        getD_take_lt p 64 (2 * k + 1) (by omega) (by omega)]

/-- `getD k` of a packed path, inside bounds (helper for C4). -/
theorem packSpec_getD (p : List Nat) (k : Nat) (hk : k < 32) :
    (packSpec p).getD k 0 = p.getD (2 * k) 0 * 16 + p.getD (2 * k + 1) 0 := by
  unfold packSpec
  rw [map_range_getD 32 _ k hk]
  rfl

/-- C4: the completion `send_node` emits for a value-bearing node
carries in its 32-byte path field the accumulated nibble path packed
two nibbles per byte, first nibble in the high half: a path of at
most 64 nibbles packs exactly with zero padding, while a longer path
packs only its first 64 nibbles and sets byte 31 to the truncation
marker `0xFF`. -/
theorem send_node_path_packing (lo hi : Nat) (n : MptNode) (st : MachineState)
    (hp : ∀ x ∈ st.path, x < 16) :
    ∃ c, (send_node lo hi n st).out = st.out ++ [c] ∧
      c.merkle_hash = packNibblesBytes st.path ∧
      (st.path.length ≤ 64 →
        c.merkle_hash = packSpec st.path ∧
        ∀ k < 32, c.merkle_hash.getD k 0 =
          st.path.getD (2 * k) 0 * 16 + st.path.getD (2 * k + 1) 0) ∧
      (64 < st.path.length →
        c.merkle_hash = (packSpec (st.path.take 64)).set 31 255 ∧
        c.merkle_hash.getD 31 0 = 255) := by
  obtain ⟨hsmall, hbig⟩ := packNibblesBytes_spec st.path hp
  refine ⟨_, rfl, rfl, fun h => ⟨hsmall h, ?_⟩, fun h => ⟨hbig h, ?_⟩⟩
  · intro k hk
    rw [hsmall h, packSpec_getD st.path k hk]
  · rw [hbig h]
    have hlen : ((packSpec (st.path.take 64)).set 31 255).length = 32 := by
      simp [packSpec]
    have h31 : (31 : Nat) < ((packSpec (st.path.take 64)).set 31 255).length := by
      omega
    rw [List.getD_eq_getElem _ _ h31, List.getElem_set]
    simp

/-- A 65-nibble machine path for the C4 witness. -/
def path65_state : MachineState :=
  { path := List.replicate 65 3, out := [], larges := [] }

/-- A value-bearing leaf for the C4 witness. -/
def leaf_node : MptNode := .mk [] true [9] [] []

/-- Witness for C4 at a concrete input: a 65-nibble path sets the
truncation marker in the final byte of the emitted completion. -/
theorem send_node_path_packing_witness :
    ((send_node 1 2 leaf_node path65_state).out.map
        fun c => c.merkle_hash.getD 31 0) = [255] := by
  obtain ⟨c, hc, _, _, hbig⟩ :=
    send_node_path_packing 1 2 leaf_node path65_state
      (by intro x hx; have := List.eq_of_mem_replicate hx; omega)
  obtain ⟨_, h31⟩ := hbig (by simp [path65_state])
  rw [hc]
  simp [path65_state]
  simpa [List.getD] using h31

/-- `send_node` appends exactly one TraverseMore completion carrying
the machine's correlation id, plus large-value records (at most one)
with the same id (helper for C3/C7). -/
theorem send_node_out_spec (lo hi : Nat) (n : MptNode) (st : MachineState) :
    ∃ c ls, (send_node lo hi n st).out = st.out ++ [c] ∧
      (send_node lo hi n st).larges = st.larges ++ ls ∧
      c.status = .traverseMore ∧ c.user_data_lo = lo ∧ c.user_data_hi = hi ∧
      ∀ l ∈ ls, l.user_data_lo = lo ∧ l.user_data_hi = hi := by
  refine ⟨_, _, rfl, rfl, rfl, rfl, rfl, ?_⟩
  intro l hl
  by_cases h : n.value.length ≤ 256
  · rw [if_pos h] at hl
    cases hl
  · rw [if_neg h] at hl
    unfold post_large_value at hl
    by_cases h2 : n.value.length > LARGE_SENTINEL
    · rw [if_pos h2] at hl
      cases hl
    · rw [if_neg h2] at hl
      simp at hl
      rw [hl]
      exact ⟨rfl, rfl⟩

/-- `down` appends at most one TraverseMore completion, with the
machine's correlation id on everything it posts. -/
theorem down_out_spec (lo hi : Nat) (branch : Option Nat) (n : MptNode)
    (st : MachineState) :
    ∃ newC newL, (down lo hi branch n st).out = st.out ++ newC ∧
      (down lo hi branch n st).larges = st.larges ++ newL ∧
      newC.length ≤ 1 ∧
      (∀ c ∈ newC, c.status = .traverseMore ∧ c.user_data_lo = lo ∧
        c.user_data_hi = hi) ∧
      (∀ l ∈ newL, l.user_data_lo = lo ∧ l.user_data_hi = hi) := by
  rcases branch with _ | b <;> rcases hv : n.has_value with _ | _
  · refine ⟨[], [], ?_, ?_, by norm_num, by simp, by simp⟩ <;> simp [down, hv]
  · obtain ⟨c, ls, h1, h2, h3, h4, h5, h6⟩ := send_node_out_spec lo hi n st
    refine ⟨[c], ls, ?_, ?_, by norm_num, ?_, h6⟩
    · simp only [down, hv, if_true]
      exact h1
    · simp only [down, hv, if_true]
      exact h2
    · intro x hx
      simp at hx
      rw [hx]
      exact ⟨h3, h4, h5⟩
  · refine ⟨[], [], ?_, ?_, by norm_num, by simp, by simp⟩ <;> simp [down, hv]
  · obtain ⟨c, ls, h1, h2, h3, h4, h5, h6⟩ :=
      send_node_out_spec lo hi n { st with path := st.path ++ b :: n.path_nibbles }
    refine ⟨[c], ls, ?_, ?_, by norm_num, ?_, h6⟩
    · simp only [down, hv, if_true]
      exact h1
    · simp only [down, hv, if_true]
      exact h2
    · intro x hx
      simp at hx
      rw [hx]
      exact ⟨h3, h4, h5⟩

mutual

/-- DFS node visit: the returned budget never grows; the machine
state is extended by TraverseMore completions carrying the machine's
correlation id, at most as many as the budget consumed, and by
large-value records with the same id. -/
theorem dfsVisit_out_spec (lo hi : Nat) (branch : Option Nat) (n : MptNode)
    (fuel : Nat) (st : MachineState) :
    (dfsVisit lo hi branch n fuel st).1 ≤ fuel ∧
    ∃ newC newL,
      (dfsVisit lo hi branch n fuel st).2.out = st.out ++ newC ∧
      (dfsVisit lo hi branch n fuel st).2.larges = st.larges ++ newL ∧
      newC.length + (dfsVisit lo hi branch n fuel st).1 ≤ fuel ∧
      (∀ c ∈ newC, c.status = .traverseMore ∧ c.user_data_lo = lo ∧
        c.user_data_hi = hi) ∧
      (∀ l ∈ newL, l.user_data_lo = lo ∧ l.user_data_hi = hi) := by
  match n, fuel with
  | n, 0 =>
    have h0 : dfsVisit lo hi branch n 0 st = (0, st) := by
      cases n with
      | mk pn hv v dd kids => rfl
    rw [h0]
    exact ⟨le_rfl, [], [], by simp, by simp, by simp, by simp, by simp⟩
  | .mk pn hv v dd kids, fuel + 1 =>
    obtain ⟨dC, dL, hdo, hdl, hdlen, hdc, hdll⟩ :=
      down_out_spec lo hi branch (.mk pn hv v dd kids) st
    obtain ⟨hkle, kC, kL, hko, hkl, hklen, hkc, hkll⟩ :=
      dfsKids_out_spec lo hi kids fuel (down lo hi branch (.mk pn hv v dd kids) st)
    have hru : dfsVisit lo hi branch (.mk pn hv v dd kids) (fuel + 1) st =
        ((dfsKids lo hi kids fuel (down lo hi branch (.mk pn hv v dd kids) st)).1,
         up branch (.mk pn hv v dd kids)
           (dfsKids lo hi kids fuel (down lo hi branch (.mk pn hv v dd kids) st)).2) := by
      simp [dfsVisit]
    rw [hru]
    refine ⟨le_trans hkle (Nat.le_succ fuel), dC ++ kC, dL ++ kL, ?_, ?_, ?_, ?_, ?_⟩
    · show (dfsKids lo hi kids fuel
        (down lo hi branch (.mk pn hv v dd kids) st)).2.out = st.out ++ (dC ++ kC)
      rw [hko, hdo, List.append_assoc]
    · show (dfsKids lo hi kids fuel
        (down lo hi branch (.mk pn hv v dd kids) st)).2.larges = st.larges ++ (dL ++ kL)
      rw [hkl, hdl, List.append_assoc]
    · have h1 : (dC ++ kC).length = dC.length + kC.length := List.length_append dC kC
      omega
    · intro c hc
      rcases List.mem_append.mp hc with h | h
      · exact hdc c h
      · exact hkc c h
    · intro l hl
      rcases List.mem_append.mp hl with h | h
      · exact hdll l h
      · exact hkll l h

/-- DFS over a child list: same invariants, threading the budget left
to right. -/
theorem dfsKids_out_spec (lo hi : Nat) (kids : List (Nat × MptNode)) (fuel : Nat)
    (st : MachineState) :
    (dfsKids lo hi kids fuel st).1 ≤ fuel ∧
    ∃ newC newL,
      (dfsKids lo hi kids fuel st).2.out = st.out ++ newC ∧
      (dfsKids lo hi kids fuel st).2.larges = st.larges ++ newL ∧
      newC.length + (dfsKids lo hi kids fuel st).1 ≤ fuel ∧
      (∀ c ∈ newC, c.status = .traverseMore ∧ c.user_data_lo = lo ∧
        c.user_data_hi = hi) ∧
      (∀ l ∈ newL, l.user_data_lo = lo ∧ l.user_data_hi = hi) := by
  match kids with
  | [] =>
    have h0 : dfsKids lo hi [] fuel st = (fuel, st) := rfl
    rw [h0]
    exact ⟨le_rfl, [], [], by simp, by simp, by simp, by simp, by simp⟩
  | (b, c) :: rest =>
    obtain ⟨hle1, C1, L1, ho1, hl1, hlen1, hc1, hl1p⟩ :=
      dfsVisit_out_spec lo hi (some b) c fuel st
    obtain ⟨hle2, C2, L2, ho2, hl2, hlen2, hc2, hl2p⟩ :=
      dfsKids_out_spec lo hi rest (dfsVisit lo hi (some b) c fuel st).1
        (dfsVisit lo hi (some b) c fuel st).2
    have hru : dfsKids lo hi ((b, c) :: rest) fuel st =
        dfsKids lo hi rest (dfsVisit lo hi (some b) c fuel st).1
          (dfsVisit lo hi (some b) c fuel st).2 := by
      simp [dfsKids]
    rw [hru]
    refine ⟨le_trans hle2 hle1, C1 ++ C2, L1 ++ L2, ?_, ?_, ?_, ?_, ?_⟩
    · rw [ho2, ho1, List.append_assoc]
    · rw [hl2, hl1, List.append_assoc]
    · have h1 : (C1 ++ C2).length = C1.length + C2.length := List.length_append C1 C2
      omega
    · intro x hx
      rcases List.mem_append.mp hx with h | h
      · exact hc1 x h
      · exact hc2 x h
    · intro x hx
      rcases List.mem_append.mp hx with h | h
      · exact hl1p x h
      · exact hl2p x h

end

/-- C3: processing any Traverse request emits a finite sequence of
TraverseMore completions — never more than the effective limit (the
request's `traverse_limit` when nonzero, else 4096) — followed by
exactly one TraverseEnd completion with the request's correlation id
and no value; the TraverseEnd is emitted even when the starting node
cannot be resolved or the collaborator fails. -/
theorem traverse_more_then_end (db : DbModel) (req : Request) :
    ∃ mores, (process_traverse db req).completions =
        mores ++ [traverse_end_completion req] ∧
      (∀ c ∈ mores, c.status = .traverseMore) ∧
      mores.length ≤ effective_limit req ∧
      (traverse_end_completion req).status = .traverseEnd ∧
      (traverse_end_completion req).user_data_lo = req.user_data_lo ∧
      (traverse_end_completion req).user_data_hi = req.user_data_hi ∧
      (traverse_end_completion req).value_len = 0 ∧
      (traverse_end_completion req).value = [] := by
  rcases hf : db.find (req.key.take req.key_len) req.version with _ | _ | (_ | root)
  · exact ⟨[], by simp [process_traverse, hf], by simp, by simp, rfl, rfl, rfl, rfl, rfl⟩
  · exact ⟨[], by simp [process_traverse, hf], by simp, by simp, rfl, rfl, rfl, rfl, rfl⟩
  · exact ⟨[], by simp [process_traverse, hf], by simp, by simp, rfl, rfl, rfl, rfl, rfl⟩
  · obtain ⟨hle, newC, newL, hout, hlarge, hlen, hstat, hlp⟩ :=
      dfsVisit_out_spec req.user_data_lo req.user_data_hi none root
        (effective_limit req)
        { path := bytesToNibbles (req.key.take req.key_len), out := [], larges := [] }
    refine ⟨newC, ?_, fun c hc => (hstat c hc).1, by omega, rfl, rfl, rfl, rfl, rfl⟩
    simp only [process_traverse, hf]
    rw [hout]
    simp

/-- C7: every completion and large-value record produced by
processing a request — Find or Traverse — carries both 64-bit halves
of the request's correlation id unchanged. -/
theorem correlation_id_preserved (db : DbModel) (req : Request) :
    (∀ c ∈ (process_find db req).completions,
      c.user_data_lo = req.user_data_lo ∧ c.user_data_hi = req.user_data_hi) ∧
    (∀ l ∈ (process_find db req).larges,
      l.user_data_lo = req.user_data_lo ∧ l.user_data_hi = req.user_data_hi) ∧
    (∀ c ∈ (process_traverse db req).completions,
      c.user_data_lo = req.user_data_lo ∧ c.user_data_hi = req.user_data_hi) ∧
    (∀ l ∈ (process_traverse db req).larges,
      l.user_data_lo = req.user_data_lo ∧ l.user_data_hi = req.user_data_hi) := by
  rcases hf : db.find (req.key.take req.key_len) req.version with _ | _ | (_ | node)
  case fault =>
    have he : process_find db req =
        { completions := [status_completion req .error], larges := [] } := by
      simp [process_find, hf, status_completion]
    refine ⟨?_, ?_, ?_, ?_⟩
    · intro c hc; rw [he] at hc; simp at hc; rw [hc]; exact ⟨rfl, rfl⟩
    · intro l hl; rw [he] at hl; simp at hl
    · intro c hc; simp [process_traverse, hf] at hc; rw [hc]; exact ⟨rfl, rfl⟩
    · intro l hl; simp [process_traverse, hf] at hl
  case exn =>
    have he : process_find db req =
        { completions := [status_completion req .error], larges := [] } := by
      simp [process_find, hf, status_completion]
    refine ⟨?_, ?_, ?_, ?_⟩
    · intro c hc; rw [he] at hc; simp at hc; rw [hc]; exact ⟨rfl, rfl⟩
    · intro l hl; rw [he] at hl; simp at hl
    · intro c hc; simp [process_traverse, hf] at hc; rw [hc]; exact ⟨rfl, rfl⟩
    · intro l hl; simp [process_traverse, hf] at hl
  case cursor.none =>
    have he : process_find db req =
        { completions := [status_completion req .notFound], larges := [] } := by
      simp [process_find, hf, status_completion]
    refine ⟨?_, ?_, ?_, ?_⟩
    · intro c hc; rw [he] at hc; simp at hc; rw [hc]; exact ⟨rfl, rfl⟩
    · intro l hl; rw [he] at hl; simp at hl
    · intro c hc; simp [process_traverse, hf] at hc; rw [hc]; exact ⟨rfl, rfl⟩
    · intro l hl; simp [process_traverse, hf] at hl
  case cursor.some =>
    obtain ⟨hle, newC, newL, hout, hlarge, hlen, hstat, hlp⟩ :=
      dfsVisit_out_spec req.user_data_lo req.user_data_hi none node
        (effective_limit req)
        { path := bytesToNibbles (req.key.take req.key_len), out := [], larges := [] }
    refine ⟨?_, ?_, ?_, ?_⟩
    · intro c hc
      rcases hb : node.has_value with _ | _
      · have he : process_find db req =
            { completions := [status_completion req .notFound], larges := [] } := by
          simp [process_find, hf, hb, status_completion]
        rw [he] at hc; simp at hc; rw [hc]; exact ⟨rfl, rfl⟩
      · rw [process_find_found_spec db req node hf hb] at hc
        simp at hc
        rw [hc]
        exact ⟨rfl, rfl⟩
    · intro l hl
      rcases hb : node.has_value with _ | _
      · have he : process_find db req =
            { completions := [status_completion req .notFound], larges := [] } := by
          simp [process_find, hf, hb, status_completion]
        rw [he] at hl; simp at hl
      · rw [process_find_found_spec db req node hf hb] at hl
        simp only [found_larges] at hl
        by_cases hlen2 : node.value.length ≤ 256
        · rw [if_pos hlen2] at hl; cases hl
        · rw [if_neg hlen2] at hl
          unfold post_large_value at hl
          by_cases hbig : node.value.length > LARGE_SENTINEL
          · rw [if_pos hbig] at hl; cases hl
          · rw [if_neg hbig] at hl
            simp at hl
            rw [hl]
            exact ⟨rfl, rfl⟩
    · intro c hc
      simp only [process_traverse, hf] at hc
      rw [hout] at hc
      simp at hc
      rcases hc with hc | hc
      · exact ⟨(hstat c hc).2.1, (hstat c hc).2.2⟩
      · rw [hc]; exact ⟨rfl, rfl⟩
    · intro l hl
      simp only [process_traverse, hf] at hl
      rw [hlarge] at hl
      simp at hl
      exact hlp l hl

/-- A Traverse request used for the C3 witness. -/
def traverse_req : Request :=
  { user_data_lo := 9, user_data_hi := 10, version := 1, type := .traverse,
    key_len := 0, key := [], traverse_limit := 0 }

/-- Witness for C3 at a concrete input: even when the lookup of the
starting node throws, the last (and only) completion is the
TraverseEnd. -/
theorem traverse_more_then_end_witness :
    (process_traverse err_db traverse_req).completions.getLast? =
      some (traverse_end_completion traverse_req) := by
  obtain ⟨mores, hcomp, -, -, -, -, -, -, -⟩ := traverse_more_then_end err_db traverse_req
  rw [hcomp]
  simp

/-- Witness for C7 at a concrete input: the completion of a concrete
Find request carries the request's correlation id halves. -/
theorem correlation_id_preserved_witness :
    ((process_find hello_db hello_req).completions.headD
        (status_completion hello_req .ok)).user_data_lo = 5 ∧
    ((process_find hello_db hello_req).completions.headD
        (status_completion hello_req .ok)).user_data_hi = 6 := by
  have h := (correlation_id_preserved hello_db hello_req).1
  have hmem : (process_find hello_db hello_req).completions.headD
      (status_completion hello_req .ok) ∈ (process_find hello_db hello_req).completions := by
    decide
  exact h _ hmem

/-- Witness for C10 at a concrete input: submitting a null node to a
live manager leaves it unchanged. -/
theorem ffi_null_safety_witness :
    fifo_submit (some FifoManager.init) none = some FifoManager.init :=
  (ffi_null_safety FifoManager.init shutdown_request
    (traverse_end_completion shutdown_request)
    ⟨0, 0, 0, []⟩ 0 0 []).2.2.2.2.2.2.2.2.1
